import Mathlib

/-!
# Verification of the forsa-smart-chatbot retrieval pipeline

Shallow embedding of the retrieval-pipeline core of the
`sohaib162/forsa-smart-chatbot` repository (the `chat-bot-algerie-telecom`
pipelines), together with proofs and refutations of the frozen claims
about its natural-language specification.

Conventions of the embedding:
* Python floats are modelled as exact rationals (`ℚ`); the only
  irrational ingredient, `math.log`, is modelled with `Real.log` and kept
  in separate `ℝ`-valued definitions.
* Python lists/dicts become Lean lists; `dict.get(key, default)` becomes
  `Option.getD`.
* Tokenised text is modelled as lists of tokens (the regex tokenisers of
  the source are orthogonal to every claim, which all quantify over
  token multisets, trigger counts or extracted numbers).
-/

namespace ForsaChatbot

/-- Python `str.upper()`, modelled as a per-character case map (the
entity codes and tokens it is applied to are ASCII). -/
def strUpper (s : String) : String := ⟨s.data.map Char.toUpper⟩

/-- Python `str.lower()`, modelled as a per-character case map. -/
def strLower (s : String) : String := ⟨s.data.map Char.toLower⟩

/-! ## Hybrid ranker: score normalisation
`HybridRanker._normalize_scores` (hybrid_ranker.py lines 288-300):

```python
if not scores: return {}
max_score = max(s[1] for s in scores) or 1
min_score = min(s[1] for s in scores)
range_score = max_score - min_score or 1
return {doc_id: (score - min_score) / range_score for doc_id, score in scores}
```

`x or 1` on a float is `1` exactly when `x == 0`.  The retrieved pool is a
list of `(doc_id, score)` pairs with distinct ids, so the returned dict is
modelled as the list of pairs with normalised second components. -/

/-- Maximum of the scores of a non-empty pool, Python `max(s[1] for s in scores)`. -/
def poolMax : List (ℕ × ℚ) → ℚ
  | [] => 0
  | p :: ps => ps.foldl (fun acc q => max acc q.2) p.2

/-- Minimum of the scores of a non-empty pool, Python `min(s[1] for s in scores)`. -/
def poolMin : List (ℕ × ℚ) → ℚ
  | [] => 0
  | p :: ps => ps.foldl (fun acc q => min acc q.2) p.2

/-- `HybridRanker._normalize_scores`, including the two `or 1` fallbacks. -/
def normalizeScores (scores : List (ℕ × ℚ)) : List (ℕ × ℚ) :=
  if scores = [] then []
  else
    let maxScore0 := poolMax scores
    let maxScore := if maxScore0 = 0 then 1 else maxScore0
    let minScore := poolMin scores
    let rangeScore0 := maxScore - minScore
    let rangeScore := if rangeScore0 = 0 then 1 else rangeScore0
    scores.map (fun p => (p.1, (p.2 - minScore) / rangeScore))

/-! ## Hybrid ranker: numeric hard boost
`HybridRanker._apply_numeric_boost` (hybrid_ranker.py lines 302-344).
The document fields read are exactly the structured fields
`price_value`, `speed_mbps`, `is_free`; the loops break at the first
query price (resp. speed) that matches exactly or within tolerance. -/

/-- The structured numeric fields of a passage that
`_apply_numeric_boost` reads. -/
structure NumericFields where
  price_value : Option ℤ
  speed_mbps : Option ℚ
  is_free : Bool
deriving Repr, DecidableEq

/-- Price factor: first `qp` with `doc_price == qp` gives `2.0`,
first `qp` with `abs(doc_price - qp) <= 100` gives `1.5` (the Python
loop breaks on whichever condition fires first in list order). -/
def priceFactor (docPrice : ℤ) : List ℤ → ℚ
  | [] => 1
  | qp :: qps =>
    if docPrice = qp then 2
    else if |docPrice - qp| ≤ 100 then 3/2
    else priceFactor docPrice qps

/-- Speed factor: exact match `2.0`, within `doc_speed * 0.1` gives `1.5`,
first match in list order wins. -/
def speedFactor (docSpeed : ℚ) : List ℚ → ℚ
  | [] => 1
  | qs :: qss =>
    if docSpeed = qs then 2
    else if |docSpeed - qs| ≤ docSpeed * (1/10) then 3/2
    else speedFactor docSpeed qss

/-- `HybridRanker._apply_numeric_boost` on the structured fields of the
document at `doc_id` (the `doc_id >= len(self.documents)` guard returns
`1.0` and is handled by the caller supplying the fields). -/
def applyNumericBoost (doc : NumericFields) (queryPrices : List ℤ)
    (querySpeeds : List ℚ) : ℚ :=
  let boost : ℚ := 1
  let boost := match doc.price_value with
    | none => boost
    | some p => if queryPrices ≠ [] then boost * priceFactor p queryPrices else boost
  let boost := match doc.speed_mbps with
    | none => boost
    | some s => if querySpeeds ≠ [] then boost * speedFactor s querySpeeds else boost
  let boost := if doc.is_free ∧ queryPrices.any (fun p => p = 0) then boost * (3/2) else boost
  boost

/-! ## Offers pipeline: dynamic top-N selection
`RetrievalPipeline._build_result` (offers pipeline.py lines 317-342):
start at `final_top_k = 1`; promote to 2 when
`score1 > 0 and (score1-score2)/score1 < 0.05`; promote to 3 when
additionally `score2 > 0 and (score2-score3)/score2 < 0.05`; finally
`min(final_top_k, len(candidates), top_k)`. -/

/-- The dynamic-top-N margin, `MARGIN = 0.05`. -/
def topNMargin : ℚ := 1/20

/-- The dynamic top-N count computed by `_build_result` from the
descending candidate scores and the caller's maximum `top_k`. -/
def dynamicTopK (scores : List ℚ) (topK : ℕ) : ℕ :=
  let finalTopK : ℕ :=
    match scores with
    | s1 :: s2 :: rest =>
      if 0 < s1 ∧ (s1 - s2) / s1 < topNMargin then
        match rest with
        | s3 :: _ => if 0 < s2 ∧ (s2 - s3) / s2 < topNMargin then 3 else 2
        | [] => 2
      else 1
    | _ => 1
  min finalTopK (min scores.length topK)

/-! ## Entity detector: hard filter
`EntityDetector.filter_passages` (entity_detector.py lines 274-303) and the
identical inline filter of `RetrievalPipeline.search`
(conventions pipeline.py lines 247-255):

```python
if not entity_result.apply_hard_filter: return passages
if not entity_result.detected_entities: return passages
target_entity = entity_result.detected_entities[0]
return [p for p in passages if p.get("entity_code", "").upper() == target_entity.upper()]
```
-/

/-- A passage as seen by the entity hard filter: only its
`entity_code` field is read (`None`/absent modelled as `none`). -/
structure FilterPassage where
  entity_code : Option String
deriving Repr, DecidableEq

/-- `EntityDetectionResult`, restricted to the fields the filter reads. -/
structure EntityDetectionResult where
  detected_entities : List String
  apply_hard_filter : Bool
deriving Repr, DecidableEq

/-- `EntityDetector.filter_passages`. -/
def filterPassages (passages : List FilterPassage)
    (result : EntityDetectionResult) : List FilterPassage :=
  if !result.apply_hard_filter then passages
  else if result.detected_entities = [] then passages
  else
    let target := result.detected_entities.headD ""
    passages.filter (fun p => strUpper (p.entity_code.getD "") == strUpper target)

/-! ## Intent classifier
`IntentClassifier._compute_scores` / `IntentClassifier.classify`
(intent_classifier.py lines 155-221).  The regex trigger counting of
`_count_triggers` is abstracted as a function `counts : Intent → ℕ`
(the number of trigger matches per intent for the query); everything
downstream of the counts is embedded exactly. -/

/-- The five intents, in the declaration order of the Python `Enum`
(which is also the iteration order of `for intent in Intent`). -/
inductive Intent
  | PRICE
  | SPEED
  | DOCUMENTS
  | BENEFICIARY
  | GENERAL
deriving Repr, DecidableEq

/-- `IntentClassifier.INTENT_PRIORITY`. -/
def INTENT_PRIORITY : Intent → ℕ
  | .PRICE => 5
  | .SPEED => 4
  | .DOCUMENTS => 3
  | .BENEFICIARY => 2
  | .GENERAL => 1

/-- Iteration order of `for intent in Intent`. -/
def intentList : List Intent :=
  [.PRICE, .SPEED, .DOCUMENTS, .BENEFICIARY, .GENERAL]

/-- `_compute_scores`: base score is the trigger count; when
`use_priority_weights` is set (the constructor default, used by the
pipeline) an intent that fired gains `INTENT_PRIORITY * 0.1`. -/
def computeScore (usePriority : Bool) (counts : Intent → ℕ) (i : Intent) : ℚ :=
  (counts i : ℚ) +
    if usePriority ∧ 0 < counts i then (INTENT_PRIORITY i : ℚ) * (1/10) else 0

/-- `max(scores.values())`; all five scores are nonnegative so folding
from `0` computes the Python maximum. -/
def maxIntentScore (usePriority : Bool) (counts : Intent → ℕ) : ℚ :=
  (intentList.map (computeScore usePriority counts)).foldr max 0

/-- Python `max(top_intents, key=lambda i: INTENT_PRIORITY[i])`:
first element of maximal priority in list order. -/
def pickMaxPriority : List Intent → Intent
  | [] => .GENERAL
  | i :: is =>
    is.foldl (fun acc j => if INTENT_PRIORITY acc < INTENT_PRIORITY j then j else acc) i

/-- `IntentClassifier.classify`, returning
`(primary_intent, confidence)`. -/
def classify (usePriority : Bool) (counts : Intent → ℕ) : Intent × ℚ :=
  let scores := computeScore usePriority counts
  let maxScore := maxIntentScore usePriority counts
  if maxScore = 0 then (.GENERAL, 1/2)
  else
    let topIntents := intentList.filter (fun i => scores i = maxScore)
    let primary := match topIntents with
      | [i] => i
      | l => pickMaxPriority l
    let total := (intentList.map scores).sum
    (primary, if 0 < total then maxScore / total else 1/2)

/-! ## Signature booster
`SignatureBooster.compute_boost` (signature_booster.py lines 158-210) and
the IDF formula of `build_signatures` (line 112):
`token_idf[token] = log((total_docs + 1) / (df + 1)) + 1`.
Substring tests (`token in query_lower`) are embedded as an explicit
character-list substring search. -/

/-- `needle` is a prefix of `hay` (character lists). -/
def charsStartWith : List Char → List Char → Bool
  | [], _ => true
  | _ :: _, [] => false
  | a :: as, b :: bs => a == b && charsStartWith as bs

/-- `needle` occurs as a contiguous substring of `hay`. -/
def charsIn (needle : List Char) : List Char → Bool
  | [] => charsStartWith needle []
  | c :: cs => charsStartWith needle (c :: cs) || charsIn needle cs

/-- Python `needle in hay` on strings. -/
def strIn (needle hay : String) : Bool :=
  charsIn needle.toList hay.toList

/-- `SignatureBooster.BASE_SIGNATURE_TOKENS`. -/
def BASE_SIGNATURE_TOKENS : List String :=
  ["ayants droit", "action sociale", "cadres supérieurs", "retraités",
   "personnel actif", "bon d'ouverture de droit", "attestation de travail",
   "carte professionnelle", "responsable habilité", "ressources humaines"]

/-- A passage as read by `compute_boost`: `entity_code`
(default `"UNK"`), `text` (default `""`), `signature_tokens`
(default `[]`). -/
structure SigPassage where
  entity_code : String
  text : String
  signature_tokens : List String
deriving Repr

/-- Step 1 of `compute_boost`: the passage signature tokens
(lower-cased, as a set) found in the lower-cased query; these make up
the `matched_tokens` list. -/
def sigMatchedTokens (p : SigPassage) (query : String) : List String :=
  ((p.signature_tokens.map strLower).dedup).filter
    (fun t => strIn t (strLower query))

/-- The accumulated raw boost of `compute_boost` before the entity
penalty and the cap: `idf·0.1` per matched passage-signature token,
`idf·0.05` per not-yet-matched entity-signature token found in the
query, and `idf·0.1` per base signature token found in both the query
and the passage text.  `idf t` models `self.token_idf.get(t, 1.0)` and
`entitySigs e` models the set `self.entity_signatures.get(e, set())`
(a duplicate-free list; `dedup` makes the set semantics explicit). -/
def sigRawBoost (idf : String → ℚ) (entitySigs : String → List String)
    (p : SigPassage) (query : String) : ℚ :=
  ((sigMatchedTokens p query).map (fun t => idf t * (1/10))).sum +
  (((entitySigs p.entity_code).dedup.filter
      (fun t => strIn t (strLower query) &&
        !(sigMatchedTokens p query).contains t)).map
    (fun t => idf t * (1/20))).sum +
  ((BASE_SIGNATURE_TOKENS.filter
      (fun t => strIn t (strLower query) && strIn t (strLower p.text))).map
    (fun t => idf t * (1/10))).sum

/-- Step 4 of `compute_boost`: `boost *= 0.5` when an entity filter is
active (a truthy, i.e. nonempty, string) and does not match the
passage's entity. -/
def sigPenalizedBoost (idf : String → ℚ) (entitySigs : String → List String)
    (p : SigPassage) (query : String) (entityCodeFilter : Option String) : ℚ :=
  match entityCodeFilter with
  | none => sigRawBoost idf entitySigs p query
  | some f =>
    if f ≠ "" ∧ p.entity_code ≠ f then sigRawBoost idf entitySigs p query * (1/2)
    else sigRawBoost idf entitySigs p query

/-- `SignatureBooster.compute_boost`: `1.0 + min(boost, 1.0)`. -/
def computeBoost (idf : String → ℚ) (entitySigs : String → List String)
    (p : SigPassage) (query : String) (entityCodeFilter : Option String) : ℚ :=
  1 + min (sigPenalizedBoost idf entitySigs p query entityCodeFilter) 1

/-- The IDF used by `build_signatures`:
`log((total_docs + 1) / (df + 1)) + 1`. -/
noncomputable def signatureIdf (totalDocs df : ℕ) : ℝ :=
  Real.log (((totalDocs : ℝ) + 1) / ((df : ℝ) + 1)) + 1

/-! ## Three-layer cascading retriever
`ThreeLayerRetriever.retrieve` (depot three_layer.py lines 42-163).
The three layer back-ends (`rule_based_filter`, `SparseRetriever.search`
with `k=1`, `DenseRetriever.search` with `k=1`) are supplied as their
result lists; the cascade over them is embedded exactly, including the
layer-name strings and the fixed `1.0` score of the rule layer. -/

/-- Blocking flags and thresholds of `ThreeLayerRetriever.__init__`. -/
structure ThreeLayerConfig where
  blockRuleLayer : Bool
  blockBm25Layer : Bool
  blockDenseLayer : Bool
  bm25ScoreThreshold : ℚ
  denseScoreThreshold : ℚ

/-- The Layer-3 (dense) fallthrough of `retrieve`. -/
def threeLayerDenseStep {α : Type} (cfg : ThreeLayerConfig)
    (denseResults : List (α × ℚ)) : Option (α × String × ℚ) :=
  match (if cfg.blockDenseLayer then [] else denseResults).head? with
  | some dq =>
    if cfg.denseScoreThreshold ≤ dq.2 then some (dq.1, "Layer 3 (Dense)", dq.2)
    else none
  | none => none

/-- The Layer-2 (BM25) step of `retrieve`, falling through to Layer 3. -/
def threeLayerSparseStep {α : Type} (cfg : ThreeLayerConfig)
    (sparseResults denseResults : List (α × ℚ)) : Option (α × String × ℚ) :=
  match (if cfg.blockBm25Layer then [] else sparseResults).head? with
  | some dq =>
    if cfg.bm25ScoreThreshold ≤ dq.2 then some (dq.1, "Layer 2 (BM25)", dq.2)
    else threeLayerDenseStep cfg denseResults
  | none => threeLayerDenseStep cfg denseResults

/-- `ThreeLayerRetriever.retrieve`, reduced to the returned
`(document, layer_name, score)` triple (`None` when no layer succeeds). -/
def threeLayerRetrieve {α : Type} (cfg : ThreeLayerConfig)
    (ruleCandidates : List α) (sparseResults denseResults : List (α × ℚ)) :
    Option (α × String × ℚ) :=
  match (if cfg.blockRuleLayer then [] else ruleCandidates).head? with
  | some doc => some (doc, "Layer 1 (Rule-based)", 1)
  | none => threeLayerSparseStep cfg sparseResults denseResults

/-! ## Reranker availability and dispatch
`get_reranker` (cross_encoder_reranker.py lines 314-327) returns a
`CrossEncoderReranker` when `use_cross_encoder` is set and the model
loads, and a `FallbackReranker` otherwise.  `FallbackReranker` defines
only a `rerank` method; `RetrievalPipeline.search`
(conventions pipeline.py lines 266-277) calls
`self.cross_encoder.rerank_with_aggregation(...)` whenever
`config.use_cross_encoder` is set and `self.cross_encoder` is not `None`.
Calling a method a Python object does not define raises
`AttributeError`, modelled with `Except`. -/

/-- The dynamic type of the object returned by `get_reranker`. -/
inductive RerankerKind
  | crossEncoder
  | fallback
deriving Repr, DecidableEq

/-- `get_reranker(use_cross_encoder, ...)` with `available` the outcome
of `CrossEncoderReranker.is_available()` (model load). -/
def getReranker (useCrossEncoder available : Bool) : RerankerKind :=
  if useCrossEncoder && available then .crossEncoder else .fallback

/-- Which classes define `rerank_with_aggregation`:
`CrossEncoderReranker` does; `FallbackReranker` defines only `rerank`. -/
def hasRerankWithAggregation : RerankerKind → Bool
  | .crossEncoder => true
  | .fallback => false

/-- How `RetrievalPipeline.search` produced its `final_docs`. -/
inductive AggregationPath
  | crossEncoderAgg
  | simpleAgg
deriving Repr, DecidableEq

/-- The final-docs step of `RetrievalPipeline.search`: `initialize`
stores `get_reranker(...)` in `self.cross_encoder` when
`config.use_cross_encoder` is set; `search` then dispatches
`rerank_with_aggregation` on it, which raises `AttributeError` when the
object lacks the method. -/
def searchAggregationStep (useCrossEncoder available : Bool) :
    Except String AggregationPath :=
  let crossEncoder : Option RerankerKind :=
    if useCrossEncoder then some (getReranker useCrossEncoder available) else none
  if useCrossEncoder ∧ crossEncoder.isSome then
    match crossEncoder with
    | some r =>
      if hasRerankWithAggregation r then .ok .crossEncoderAgg
      else .error "AttributeError: FallbackReranker object has no attribute rerank_with_aggregation"
    | none => .ok .simpleAgg
  else .ok .simpleAgg

/-- `FallbackReranker.rerank` heuristic score of one passage text
(query-term coverage + exact-substring bonus + length bonus); embedded
to document the heuristic the fallback path was meant to use. -/
def fallbackScore (query text : String) : ℚ :=
  let queryLower := strLower query
  let queryTerms := ((queryLower.split (fun c => c.isWhitespace)).filter
      (fun s => s ≠ "")).dedup
  let textLower := strLower text
  let commonTerms := (queryTerms.filter (fun t => strIn t textLower)).length
  let termCoverage : ℚ :=
    if queryTerms ≠ [] then (commonTerms : ℚ) / (queryTerms.length : ℚ) else 0
  let exactMatchBonus : ℚ := if strIn queryLower textLower then 1/5 else 0
  let lengthBonus : ℚ :=
    if 50 < textLower.length ∧ textLower.length < 300 then 1/10 else 0
  termCoverage + exactMatchBonus + lengthBonus

/-! ## BM25 index
`BM25Index.build_index` / `BM25Index.search` (hybrid_ranker.py lines
67-145), `k1 = 1.5`, `b = 0.75`.  The corpus is modelled
post-tokenisation as a list of token lists (tokens as naturals);
`search` accumulates, for every query token,
`idf * tf*(k1+1) / (tf + k1*(1 - b + b*doc_length/avg_doc_length))`
into the document's score. -/

/-- `k1 = 1.5`. -/
def bm25K1 : ℚ := 3/2

/-- `b = 0.75`. -/
def bm25B : ℚ := 3/4

/-- Length of document `i`. -/
def docLength (corpus : List (List ℕ)) (i : ℕ) : ℕ :=
  (corpus.getD i []).length

/-- Total token count of the corpus. -/
def totalLen (corpus : List (List ℕ)) : ℕ :=
  (corpus.map List.length).sum

/-- `avg_doc_length = sum(doc_lengths)/len(doc_lengths) if doc_lengths else 1`. -/
def avgDocLength (corpus : List (List ℕ)) : ℚ :=
  if corpus = [] then 1 else (totalLen corpus : ℚ) / (corpus.length : ℚ)

/-- Term frequency of `t` in document `i`. -/
def termFreq (corpus : List (List ℕ)) (i t : ℕ) : ℕ :=
  (corpus.getD i []).count t

/-- Document frequency of `t` (`self.term_doc_freq`). -/
def docFreq (corpus : List (List ℕ)) (t : ℕ) : ℕ :=
  corpus.countP (fun d => d.contains t)

/-- The tf-dependent factor of one BM25 summand:
`tf*(k1+1) / (tf + k1*(1 - b + b*doc_length/avg_doc_length))`. -/
def bm25TfPart (corpus : List (List ℕ)) (i t : ℕ) : ℚ :=
  let tf : ℚ := (termFreq corpus i t : ℚ)
  let dl : ℚ := (docLength corpus i : ℚ)
  tf * (bm25K1 + 1) /
    (tf + bm25K1 * (1 - bm25B + bm25B * dl / avgDocLength corpus))

/-- `BM25Index._idf`: `0` when `df = 0`, else
`log((total_docs - df + 0.5)/(df + 0.5) + 1)`. -/
noncomputable def bm25Idf (corpus : List (List ℕ)) (t : ℕ) : ℝ :=
  if docFreq corpus t = 0 then 0
  else
    Real.log (((corpus.length : ℝ) - (docFreq corpus t : ℝ) + 1/2) /
      ((docFreq corpus t : ℝ) + 1/2) + 1)

/-- The BM25 score of document `i` for a tokenised query: the sum the
`search` loop accumulates into `scores[i]` (documents sharing no term
with the query keep score `0`). -/
noncomputable def bm25Score (corpus : List (List ℕ)) (i : ℕ)
    (query : List ℕ) : ℝ :=
  (query.map (fun t => bm25Idf corpus t * (bm25TfPart corpus i t : ℝ))).sum

/-! ## Helper lemmas -/

section PoolLemmas

private def maxStep (acc : ℚ) (q : ℕ × ℚ) : ℚ := max acc q.2

private def minStep (acc : ℚ) (q : ℕ × ℚ) : ℚ := min acc q.2

lemma init_le_foldl_max (ps : List (ℕ × ℚ)) (a : ℚ) :
    a ≤ ps.foldl (fun acc q => max acc q.2) a := by
  induction ps generalizing a with
  | nil => exact le_refl a
  | cons q ps ih => exact le_trans (le_max_left a q.2) (ih (max a q.2))

lemma mem_le_foldl_max (ps : List (ℕ × ℚ)) (a : ℚ) :
    ∀ q ∈ ps, q.2 ≤ ps.foldl (fun acc q => max acc q.2) a := by
  induction ps generalizing a with
  | nil => intro q hq; exact absurd hq (List.not_mem_nil q)
  | cons r rs ih =>
    intro q hq
    rcases List.mem_cons.mp hq with h | h
    · subst h
      exact le_trans (le_max_right a q.2) (init_le_foldl_max rs (max a q.2))
    · exact ih (max a r.2) q h

lemma foldl_min_le_init (ps : List (ℕ × ℚ)) (a : ℚ) :
    ps.foldl (fun acc q => min acc q.2) a ≤ a := by
  induction ps generalizing a with
  | nil => exact le_refl a
  | cons q ps ih => exact le_trans (ih (min a q.2)) (min_le_left a q.2)

lemma foldl_min_le_mem (ps : List (ℕ × ℚ)) (a : ℚ) :
    ∀ q ∈ ps, ps.foldl (fun acc q => min acc q.2) a ≤ q.2 := by
  induction ps generalizing a with
  | nil => intro q hq; exact absurd hq (List.not_mem_nil q)
  | cons r rs ih =>
    intro q hq
    rcases List.mem_cons.mp hq with h | h
    · subst h
      exact le_trans (foldl_min_le_init rs (min a q.2)) (min_le_right a q.2)
    · exact ih (min a r.2) q h

lemma le_poolMax (scores : List (ℕ × ℚ)) : ∀ q ∈ scores, q.2 ≤ poolMax scores := by
  intro q hq
  match scores, hq with
  | p :: ps, hq =>
    rcases List.mem_cons.mp hq with h | h
    · subst h; exact init_le_foldl_max ps q.2
    · exact mem_le_foldl_max ps p.2 q h

lemma poolMin_le (scores : List (ℕ × ℚ)) : ∀ q ∈ scores, poolMin scores ≤ q.2 := by
  intro q hq
  match scores, hq with
  | p :: ps, hq =>
    rcases List.mem_cons.mp hq with h | h
    · subst h; exact foldl_min_le_init ps q.2
    · exact foldl_min_le_mem ps p.2 q h

end PoolLemmas

/-! ## Claim theorems -/

/-- **C2, counterexample.**  The claim says a pool containing a single
value normalises to `0.5`; `_normalize_scores` maps the singleton pool
`[(0, 5)]` to `[(0, 0)]` (the `range_score or 1` fallback turns the zero
range into `1`, and `(5-5)/1 = 0`), and `0 ≠ 0.5`. -/
theorem C2_counterexample :
    normalizeScores [(0, 5)] = [(0, 0)] ∧ ((0 : ℚ) ≠ 1/2) := by
  norm_num [normalizeScores, poolMax, poolMin]

/-- **C2, amended.**  Per-call min-max normalisation: empty pool ⇒ empty
result; a singleton pool normalises to `0.0` (not `0.5`); every
normalised value lies in `[0,1]`; and whenever the pool maximum is
nonzero and strictly above the pool minimum, the maximum is mapped to
exactly `1.0`. -/
theorem C2_normalize_amended :
    (normalizeScores [] = []) ∧
    (∀ (i : ℕ) (v : ℚ), normalizeScores [(i, v)] = [(i, 0)]) ∧
    (∀ scores : List (ℕ × ℚ), ∀ p ∈ normalizeScores scores, 0 ≤ p.2 ∧ p.2 ≤ 1) ∧
    (∀ scores : List (ℕ × ℚ), poolMax scores ≠ 0 →
      poolMin scores < poolMax scores →
      ∀ p ∈ scores, p.2 = poolMax scores → (p.1, (1 : ℚ)) ∈ normalizeScores scores) := by
  refine ⟨rfl, ?_, ?_, ?_⟩
  · intro i v
    by_cases hv : v = 0 <;>
      simp [normalizeScores, poolMax, poolMin, hv]
  · intro scores p hp
    rcases scores with _ | ⟨q0, qs⟩
    · simp [normalizeScores] at hp
    set scores := q0 :: qs with hscores
    have hne : scores ≠ [] := by simp [hscores]
    rw [normalizeScores, if_neg hne] at hp
    rcases List.mem_map.mp hp with ⟨q, hq, hfq⟩
    set M0 := poolMax scores with hM0
    set m := poolMin scores with hm
    have hqM : q.2 ≤ M0 := le_poolMax scores q hq
    have hqm : m ≤ q.2 := poolMin_le scores q hq
    set M : ℚ := if M0 = 0 then 1 else M0 with hM
    set r0 : ℚ := M - m with hr0
    set r : ℚ := if r0 = 0 then 1 else r0 with hr
    have hr_pos : 0 < r ∧ q.2 - m ≤ r := by
      by_cases h0 : M0 = 0
      · have hM1 : M = 1 := by rw [hM, if_pos h0]
        have hmle : m ≤ 0 := le_trans hqm (h0 ▸ hqM)
        have hr0v : r0 = 1 - m := by rw [hr0, hM1]
        have hr0ne : r0 ≠ 0 := by rw [hr0v]; intro h; linarith
        have hrv : r = 1 - m := by rw [hr, if_neg hr0ne, hr0v]
        constructor
        · rw [hrv]; linarith
        · rw [hrv]; have : q.2 ≤ 0 := h0 ▸ hqM; linarith
      · have hMv : M = M0 := by rw [hM, if_neg h0]
        by_cases hz : r0 = 0
        · have hrv : r = 1 := by rw [hr, if_pos hz]
          have : M0 - m = 0 := by rw [← hMv]; exact hz
          constructor
          · rw [hrv]; norm_num
          · rw [hrv]; linarith
        · have hrv : r = r0 := by rw [hr, if_neg hz]
          have hge : 0 ≤ r0 := by rw [hr0, hMv]; linarith
          constructor
          · rw [hrv]; exact lt_of_le_of_ne hge (Ne.symm hz)
          · rw [hrv, hr0, hMv]; linarith
    have hval : p.2 = (q.2 - m) / r := by rw [← hfq]
    constructor
    · rw [hval]
      exact div_nonneg (by linarith) (le_of_lt hr_pos.1)
    · rw [hval]
      exact (div_le_one hr_pos.1).mpr hr_pos.2
  · intro scores h0 hlt p hp hpmax
    have hne : scores ≠ [] := by
      intro h; rw [h] at hp; exact absurd hp (List.not_mem_nil p)
    have hrne : poolMax scores - poolMin scores ≠ 0 :=
      sub_ne_zero.mpr (ne_of_gt hlt)
    rw [normalizeScores, if_neg hne]
    simp only [if_neg h0, if_neg hrne]
    refine List.mem_map.mpr ⟨p, hp, ?_⟩
    rw [hpmax, div_self hrne]

/-- **C3, counterexample.**  The claim says a query whose extracted
prices *contain* `1100` boosts a `price_value = 1100` passage by exactly
`2.0`.  The price loop applies the *first* price matching exactly or
within `100` and breaks: with extracted prices `[1150, 1100]` the first
price `1150` is within `100` of `1100`, so the boost is `1.5`, not
`2.0`. -/
theorem C3_counterexample :
    (1100 : ℤ) ∈ [(1150 : ℤ), 1100] ∧
    applyNumericBoost ⟨some 1100, none, false⟩ [1150, 1100] [] = 3/2 ∧
    ((3/2 : ℚ) ≠ 2) := by
  refine ⟨by decide, ?_, by norm_num⟩
  norm_num [applyNumericBoost, priceFactor]
  simp

/-- **C3, amended.**  The numeric hard boost reads only the structured
fields `price_value`/`speed_mbps`/`is_free`; the price rule applies the
*first* extracted price that matches exactly (×2.0) or within 100 units
(×1.5), so with extracted prices `[1100]`: `price_value = 1100` ⇒ 2.0,
`1150` ⇒ 1.5, `1500` ⇒ 1.0; the analogous first-match speed rule uses a
tolerance of 10% of the passage speed; a free offer with a query price
of `0` multiplies by 1.5; a price factor is always `1`, `1.5` or `2`,
and an exact price at the head of the list always gives `2`. -/
theorem C3_numeric_boost_amended :
    applyNumericBoost ⟨some 1100, none, false⟩ [1100] [] = 2 ∧
    applyNumericBoost ⟨some 1150, none, false⟩ [1100] [] = 3/2 ∧
    applyNumericBoost ⟨some 1500, none, false⟩ [1100] [] = 1 ∧
    applyNumericBoost ⟨none, some 100, false⟩ [] [100] = 2 ∧
    applyNumericBoost ⟨none, some 100, false⟩ [] [95] = 3/2 ∧
    applyNumericBoost ⟨none, some 100, false⟩ [] [115] = 1 ∧
    applyNumericBoost ⟨none, none, true⟩ [0] [] = 3/2 ∧
    (∀ (p : ℤ) (qps : List ℤ), priceFactor p (p :: qps) = 2) ∧
    (∀ (p : ℤ) (qps : List ℤ),
      priceFactor p qps = 1 ∨ priceFactor p qps = 3/2 ∨ priceFactor p qps = 2) := by
  refine ⟨by norm_num [applyNumericBoost, priceFactor],
    by norm_num [applyNumericBoost, priceFactor],
    by norm_num [applyNumericBoost, priceFactor],
    by norm_num [applyNumericBoost, speedFactor],
    by norm_num [applyNumericBoost, speedFactor],
    by norm_num [applyNumericBoost, speedFactor],
    by norm_num [applyNumericBoost],
    ?_, ?_⟩
  · intro p qps; simp [priceFactor]
  · intro p qps
    induction qps with
    | nil => left; rfl
    | cons qp qps ih =>
      by_cases h1 : p = qp
      · right; right; simp [priceFactor, h1]
      · by_cases h2 : |p - qp| ≤ 100
        · right; left; simp [priceFactor, h1, h2]
        · simpa [priceFactor, h1, h2] using ih

/-- **C4, confirmed.**  When `apply_hard_filter` is false the passage
list is returned unchanged; when it is true with exactly one detected
entity, every passage in the output matches that entity
(case-insensitively on `entity_code`) and every matching passage of the
input is retained. -/
theorem C4_hard_filter (passages : List FilterPassage)
    (res : EntityDetectionResult) (e : String) :
    (res.apply_hard_filter = false → filterPassages passages res = passages) ∧
    (res.apply_hard_filter = true → res.detected_entities = [e] →
      ((∀ p ∈ filterPassages passages res,
          strUpper (p.entity_code.getD "") = strUpper e) ∧
       (∀ p ∈ passages, strUpper (p.entity_code.getD "") = strUpper e →
          p ∈ filterPassages passages res))) := by
  constructor
  · intro h; simp [filterPassages, h]
  · intro hh he
    constructor
    · intro p hp
      rw [filterPassages, hh, he] at hp
      simp only [Bool.not_true, Bool.false_eq_true, if_false,
        List.cons_ne_self, if_neg] at hp
      rcases List.mem_filter.mp hp with ⟨_, hcond⟩
      simpa [List.headD] using of_decide_eq_true hcond
    · intro p hp heq
      rw [filterPassages, hh, he]
      simp only [Bool.not_true, Bool.false_eq_true, if_false]
      rw [if_neg (by simp)]
      refine List.mem_filter.mpr ⟨hp, ?_⟩
      simpa [List.headD] using heq

/-- **C4, witness.** -/
theorem C4_hard_filter_witness :
    (filterPassages [⟨some "P"⟩, ⟨some "V"⟩] ⟨["P"], false⟩ =
      [⟨some "P"⟩, ⟨some "V"⟩]) ∧
    (⟨some "P"⟩ : FilterPassage) ∈
      filterPassages [⟨some "P"⟩, ⟨some "V"⟩] ⟨["P"], true⟩ :=
  ⟨(C4_hard_filter [⟨some "P"⟩, ⟨some "V"⟩] ⟨["P"], false⟩ "P").1 rfl,
   ((C4_hard_filter [⟨some "P"⟩, ⟨some "V"⟩] ⟨["P"], true⟩ "P").2 rfl rfl).2
     ⟨some "P"⟩ (by decide) (by decide)⟩

/-- **C10, confirmed.**  When the hard filter is active with a detected
entity whose upper-cased code is nonempty, every passage surviving the
filter has a present, nonempty `entity_code`: a passage with a missing
or empty entity code is treated as non-matching and removed. -/
theorem C10_missing_entity_removed (passages : List FilterPassage) (e : String)
    (he : strUpper e ≠ "") :
    ∀ p ∈ filterPassages passages ⟨[e], true⟩,
      p.entity_code ≠ none ∧ p.entity_code ≠ some "" := by
  intro p hp
  rw [filterPassages] at hp
  simp only [Bool.not_true, Bool.false_eq_true, if_false] at hp
  rw [if_neg (by simp)] at hp
  rcases List.mem_filter.mp hp with ⟨_, hcond⟩
  have hmatch : strUpper (p.entity_code.getD "") = strUpper e := by
    simpa [List.headD] using of_decide_eq_true hcond
  constructor
  · intro h
    rw [h] at hmatch
    simp only [Option.getD_none] at hmatch
    exact he (by rw [← hmatch]; rfl)
  · intro h
    rw [h] at hmatch
    simp only [Option.getD_some] at hmatch
    exact he (by rw [← hmatch]; rfl)

/-- **C10, witness** (applies the theorem at a pool containing a
missing-entity, an empty-entity and a lowercase-`p` passage; the first
two are filtered out, the third survives case-insensitively). -/
theorem C10_missing_entity_removed_witness :
    (⟨some "p"⟩ : FilterPassage).entity_code ≠ none ∧
    (⟨some "p"⟩ : FilterPassage).entity_code ≠ some "" :=
  C10_missing_entity_removed [⟨none⟩, ⟨some ""⟩, ⟨some "p"⟩] "P" (by decide)
    ⟨some "p"⟩ (by decide)

/-! ### BM25 lemmas -/

lemma getD_set_self {α : Type} (l : List α) (i : ℕ) (x d : α) (h : i < l.length) :
    (l.set i x).getD i d = x := by
  rw [List.getD_eq_getElem _ _ (by simpa using h)]
  simp [List.getElem_set_self]

lemma totalLen_set (l : List (List ℕ)) (i : ℕ) (x : List ℕ) (h : i < l.length) :
    totalLen (l.set i x) + docLength l i = totalLen l + x.length := by
  induction l generalizing i with
  | nil => simp at h
  | cons d ds ih =>
    cases i with
    | zero =>
      simp only [List.set_cons_zero, totalLen, docLength, List.map_cons,
        List.sum_cons, List.getD_cons_zero]
      omega
    | succ n =>
      have hn : n < ds.length := by simpa using h
      have := ih n hn
      simp only [List.set_cons_succ, totalLen, docLength, List.map_cons,
        List.sum_cons, List.getD_cons_succ] at this ⊢
      omega

lemma countP_set (l : List (List ℕ)) (i : ℕ) (x : List ℕ) (p : List ℕ → Bool)
    (h : i < l.length) :
    (l.set i x).countP p + (if p (l.getD i []) then 1 else 0) =
      l.countP p + (if p x then 1 else 0) := by
  induction l generalizing i with
  | nil => simp at h
  | cons d ds ih =>
    cases i with
    | zero =>
      simp only [List.set_cons_zero, List.countP_cons, List.getD_cons_zero]
      split_ifs <;> omega
    | succ n =>
      have hn : n < ds.length := by simpa using h
      have := ih n hn
      simp only [List.set_cons_succ, List.countP_cons, List.getD_cons_succ]
      split_ifs at this ⊢ <;> omega

lemma docFreq_set_mem (corpus : List (List ℕ)) (i t : ℕ) (h : i < corpus.length)
    (hmem : t ∈ corpus.getD i []) :
    docFreq (corpus.set i ((corpus.getD i []) ++ [t])) t = docFreq corpus t := by
  have hp1 : ((corpus.getD i []).contains t) = true := by
    simp only [List.contains_iff_exists_mem_beq]
    exact ⟨t, hmem, by simp⟩
  have hp2 : (((corpus.getD i []) ++ [t]).contains t) = true := by
    simp only [List.contains_iff_exists_mem_beq]
    exact ⟨t, by simp, by simp⟩
  have hcp := countP_set corpus i ((corpus.getD i []) ++ [t])
    (fun d => d.contains t) h
  rw [docFreq, docFreq]
  simp only [hp1, hp2, if_true] at hcp
  omega

lemma avgDocLength_nonneg (corpus : List (List ℕ)) : 0 ≤ avgDocLength corpus := by
  rw [avgDocLength]
  split_ifs
  · norm_num
  · positivity

lemma bm25TfPart_nonneg (corpus : List (List ℕ)) (i t : ℕ) :
    0 ≤ bm25TfPart corpus i t := by
  simp only [bm25TfPart, bm25K1, bm25B]
  apply div_nonneg
  · positivity
  · have h1 : 0 ≤ (3/4 : ℚ) * (docLength corpus i : ℚ) / avgDocLength corpus :=
      div_nonneg (by positivity) (avgDocLength_nonneg corpus)
    have h2 : (0:ℚ) ≤ (termFreq corpus i t : ℚ) := by positivity
    linarith

lemma bm25Idf_nonneg (corpus : List (List ℕ)) (t : ℕ) : 0 ≤ bm25Idf corpus t := by
  rw [bm25Idf]
  split_ifs with h
  · exact le_refl 0
  · apply Real.log_nonneg
    have hdf : docFreq corpus t ≤ corpus.length := List.countP_le_length _
    have h1 : (0:ℝ) ≤ (corpus.length : ℝ) - (docFreq corpus t : ℝ) + 1/2 := by
      have : (docFreq corpus t : ℝ) ≤ (corpus.length : ℝ) := by exact_mod_cast hdf
      linarith
    have h2 : (0:ℝ) < (docFreq corpus t : ℝ) + 1/2 := by positivity
    have := div_nonneg h1 h2.le
    linarith

/-- Core BM25 monotonicity algebra: increasing the term frequency by one
while the document grows by one token (and the corpus total length by
one) never decreases the tf-dependent factor, given `1 ≤ tf ≤ dl ≤ L`
and `1 ≤ N`. -/
lemma bm25_tf_mono (ftf fdl fL fN : ℚ) (h1 : 1 ≤ ftf) (h2 : ftf ≤ fdl)
    (h3 : fdl ≤ fL) (h4 : 1 ≤ fN) :
    ftf * (bm25K1 + 1) /
      (ftf + bm25K1 * (1 - bm25B + bm25B * fdl / (fL / fN))) ≤
    (ftf + 1) * (bm25K1 + 1) /
      ((ftf + 1) + bm25K1 * (1 - bm25B + bm25B * (fdl + 1) / ((fL + 1) / fN))) := by
  have hL : 0 < fL := by linarith
  have hN : 0 < fN := by linarith
  have hL1 : 0 < fL + 1 := by linarith
  have hdl : 0 < fdl := by linarith
  simp only [bm25K1, bm25B]
  rw [div_div_eq_mul_div, div_div_eq_mul_div]
  set E : ℚ := 3/4 * fdl * fN / fL with hE
  set F : ℚ := 3/4 * (fdl + 1) * fN / (fL + 1) with hF
  have hE0 : 0 ≤ E := by
    rw [hE]
    apply div_nonneg _ hL.le
    nlinarith
  have hF0 : 0 ≤ F := by
    rw [hF]
    apply div_nonneg _ hL1.le
    nlinarith
  have hD1 : 0 < ftf + 3/2 * (1 - 3/4 + E) := by linarith
  have hD2 : 0 < (ftf + 1) + 3/2 * (1 - 3/4 + F) := by linarith
  have hnum : 0 ≤ (ftf * (3/4) * fdl * fN + (1/4) * fL + (3/4) * fdl * fN) * (fL + 1) -
      ftf * (3/4) * (fdl + 1) * fN * fL := by
    nlinarith [mul_le_mul_of_nonneg_right
        (mul_le_mul_of_nonneg_right h2 hN.le) hL.le,
      mul_nonneg (mul_nonneg hdl.le hN.le) hL.le,
      mul_nonneg hdl.le hN.le,
      mul_nonneg (mul_nonneg (by linarith : (0:ℚ) ≤ ftf) hdl.le) hN.le,
      sq_nonneg fL, hL.le]
  have hdiff : (ftf * E + 1/4 + E) - ftf * F =
      ((ftf * (3/4) * fdl * fN + (1/4) * fL + (3/4) * fdl * fN) * (fL + 1) -
        ftf * (3/4) * (fdl + 1) * fN * fL) / (fL * (fL + 1)) := by
    rw [hE, hF]
    field_simp
    ring
  have hkey : ftf * F ≤ ftf * E + 1/4 + E := by
    have h0 : 0 ≤ (ftf * E + 1/4 + E) - ftf * F := by
      rw [hdiff]
      exact div_nonneg hnum (by positivity)
    linarith
  rw [div_le_div_iff₀ hD1 hD2]
  nlinarith [hkey]

/-! ### Intent classifier lemmas -/

/-- Every intent occurs in the iteration list. -/
lemma mem_intentList (i : Intent) : i ∈ intentList := by
  cases i <;> simp [intentList]

/-- Scores are nonnegative. -/
lemma computeScore_nonneg (usePriority : Bool) (counts : Intent → ℕ) (i : Intent) :
    0 ≤ computeScore usePriority counts i := by
  unfold computeScore
  split_ifs with h
  · positivity
  · positivity

/-- The count is a lower bound of the score. -/
lemma count_le_computeScore (usePriority : Bool) (counts : Intent → ℕ) (i : Intent) :
    (counts i : ℚ) ≤ computeScore usePriority counts i := by
  unfold computeScore
  split_ifs with h
  · have hb : 0 ≤ (INTENT_PRIORITY i : ℚ) * (1/10) := by positivity
    linarith
  · simp

/-- The score exceeds the count by at most the maximal priority bonus `1/2`. -/
lemma computeScore_le (usePriority : Bool) (counts : Intent → ℕ) (i : Intent) :
    computeScore usePriority counts i ≤ (counts i : ℚ) + 1/2 := by
  have hp : (INTENT_PRIORITY i : ℚ) ≤ 5 := by cases i <;> norm_num [INTENT_PRIORITY]
  unfold computeScore
  split_ifs with h
  · linarith
  · linarith

/-- A fired intent's score is exactly count + priority/10 (priority
weighting on). -/
lemma computeScore_of_pos (counts : Intent → ℕ) (i : Intent) (h : 0 < counts i) :
    computeScore true counts i = (counts i : ℚ) + (INTENT_PRIORITY i : ℚ) / 10 := by
  rw [computeScore, if_pos ⟨rfl, h⟩]
  ring

/-- An unfired intent's score is zero. -/
lemma computeScore_of_zero (usePriority : Bool) (counts : Intent → ℕ) (i : Intent)
    (h : counts i = 0) : computeScore usePriority counts i = 0 := by
  simp [computeScore, h]

/-- Every score is bounded by the running maximum. -/
lemma computeScore_le_maxIntentScore (usePriority : Bool) (counts : Intent → ℕ)
    (i : Intent) :
    computeScore usePriority counts i ≤ maxIntentScore usePriority counts := by
  cases i <;>
    simp [maxIntentScore, intentList, le_max_iff, le_refl]

/-- `foldr max 0` of a list is `0` or an element of the list. -/
lemma foldr_max_zero_mem (l : List ℚ) : l.foldr max 0 = 0 ∨ l.foldr max 0 ∈ l := by
  induction l with
  | nil => left; rfl
  | cons a l ih =>
    rcases max_choice a (l.foldr max 0) with h | h
    · right; rw [List.foldr_cons, h]; exact List.mem_cons_self a l
    · rcases ih with ih | ih
      · left; rw [List.foldr_cons, h, ih]
      · right; rw [List.foldr_cons, h]; exact List.mem_cons_of_mem a ih

/-- A nonzero maximum is attained by some intent. -/
lemma maxIntentScore_attained (usePriority : Bool) (counts : Intent → ℕ)
    (h : maxIntentScore usePriority counts ≠ 0) :
    ∃ i, computeScore usePriority counts i = maxIntentScore usePriority counts := by
  rcases foldr_max_zero_mem (intentList.map (computeScore usePriority counts)) with h0 | hm
  · exact absurd h0 h
  · rcases List.mem_map.mp hm with ⟨i, _, hi⟩
    exact ⟨i, hi⟩

/-- `pickMaxPriority` of a non-empty list is in the list. -/
lemma pickMaxPriority_mem (l : List Intent) (h : l ≠ []) : pickMaxPriority l ∈ l := by
  match l, h with
  | i :: is, hne =>
    rw [pickMaxPriority]
    clear hne
    induction is generalizing i with
    | nil => simp
    | cons j js ih =>
      rw [List.foldl_cons]
      split_ifs with hij
      · exact List.mem_cons_of_mem i (ih j)
      · rcases List.mem_cons.mp (ih i) with h | h
        · rw [h]; exact List.mem_cons_self i (j :: js)
        · exact List.mem_cons_of_mem i (List.mem_cons_of_mem j h)

/-- `pickMaxPriority` has maximal priority among the list. -/
lemma pickMaxPriority_le (l : List Intent) :
    ∀ j ∈ l, INTENT_PRIORITY j ≤ INTENT_PRIORITY (pickMaxPriority l) := by
  match l with
  | [] => intro j hj; exact absurd hj (List.not_mem_nil j)
  | i :: is =>
    rw [pickMaxPriority]
    have step : ∀ (is : List Intent) (a : Intent),
        INTENT_PRIORITY a ≤ INTENT_PRIORITY (is.foldl
          (fun acc j => if INTENT_PRIORITY acc < INTENT_PRIORITY j then j else acc) a) ∧
        ∀ j ∈ is, INTENT_PRIORITY j ≤ INTENT_PRIORITY (is.foldl
          (fun acc j => if INTENT_PRIORITY acc < INTENT_PRIORITY j then j else acc) a) := by
      intro is
      induction is with
      | nil => intro a; exact ⟨le_refl _, by intro j hj; exact absurd hj (List.not_mem_nil j)⟩
      | cons k ks ih =>
        intro a
        rw [List.foldl_cons]
        constructor
        · split_ifs with hak
          · exact le_trans (le_of_lt hak) (ih k).1
          · exact (ih a).1
        · intro j hj
          rcases (List.mem_cons ..).mp hj with h | h
          · subst h
            split_ifs with hak
            · exact (ih j).1
            · exact le_trans (not_lt.mp hak) (ih a).1
          · split_ifs with hak
            · exact (ih k).2 j h
            · exact (ih a).2 j h
    intro j hj
    rcases (List.mem_cons ..).mp hj with h | h
    · exact h ▸ (step is i).1
    · exact (step is i).2 j h

/-- Trigger counts produced by `_count_triggers` for the query
`"prix convention"`: one `PRICE` trigger (`\bprix\b`) and one `GENERAL`
trigger (`\bconvention\b`), no other pattern matches. -/
def cexCounts : Intent → ℕ
  | .PRICE => 1
  | .GENERAL => 1
  | _ => 0

/-- **C5, counterexample.**  The claim says confidence equals
`winning_count / total_count`, which would be `1/2` for the query
`"prix convention"` (one PRICE and one GENERAL trigger).  The classifier
(priority weighting on by default) scores PRICE at `1.5` and GENERAL at
`1.1` and returns confidence `1.5/2.6 = 15/26 ≠ 1/2`. -/
theorem C5_counterexample :
    classify true cexCounts = (Intent.PRICE, 15/26) ∧ ((15/26 : ℚ) ≠ 1/2) := by
  constructor
  · norm_num [classify, maxIntentScore, computeScore, intentList, cexCounts,
      INTENT_PRIORITY, pickMaxPriority]
  · norm_num

/-- **C5, amended.**  With the constructor-default priority weighting,
each fired intent scores `count + priority·0.1`.  When nothing fires the
result is `GENERAL` with confidence `0.5`.  Otherwise the winner still
has the (weakly) highest trigger count with ties in count broken by the
fixed priority `PRICE>SPEED>DOCUMENTS>BENEFICIARY>GENERAL`, the winner
fired, and the confidence is `(count_w + priority_w/10)` divided by the
sum of all five scores — not `winning_count / total_count`. -/
theorem C5_classify_amended (counts : Intent → ℕ) :
    ((∀ i, counts i = 0) → classify true counts = (Intent.GENERAL, 1/2)) ∧
    (¬ (∀ i, counts i = 0) →
      (∀ j, counts j ≤ counts ((classify true counts).1)) ∧
      (∀ j, counts j = counts ((classify true counts).1) →
        INTENT_PRIORITY j ≤ INTENT_PRIORITY ((classify true counts).1)) ∧
      0 < counts ((classify true counts).1) ∧
      (classify true counts).2 =
        ((counts ((classify true counts).1) : ℚ) +
          (INTENT_PRIORITY ((classify true counts).1) : ℚ) / 10) /
          (intentList.map (computeScore true counts)).sum) := by
  constructor
  · intro hz
    have hs : ∀ i, computeScore true counts i = 0 :=
      fun i => computeScore_of_zero true counts i (hz i)
    have hm : maxIntentScore true counts = 0 := by
      simp [maxIntentScore, intentList, hs]
    rw [classify, if_pos hm]
  · intro hnz
    have hm0 : maxIntentScore true counts ≠ 0 := by
      intro hm
      apply hnz
      intro i
      by_contra hc
      have hpos : 0 < counts i := Nat.pos_of_ne_zero hc
      have h1 : (1 : ℚ) ≤ counts i := by exact_mod_cast hpos
      have := le_trans (le_trans h1 (count_le_computeScore true counts i))
        (computeScore_le_maxIntentScore true counts i)
      rw [hm] at this
      linarith
    -- the winner attains the max score
    have hwin : computeScore true counts ((classify true counts).1) =
        maxIntentScore true counts ∧
        (∀ j, computeScore true counts j = maxIntentScore true counts →
          INTENT_PRIORITY j ≤ INTENT_PRIORITY ((classify true counts).1)) := by
      obtain ⟨i0, hi0⟩ := maxIntentScore_attained true counts hm0
      have hfe : i0 ∈ intentList.filter
          (fun i => decide (computeScore true counts i = maxIntentScore true counts)) :=
        List.mem_filter.mpr ⟨mem_intentList i0, by simpa using hi0⟩
      rcases hft : intentList.filter
          (fun i => decide (computeScore true counts i = maxIntentScore true counts))
        with _ | ⟨t, ts⟩
      · rw [hft] at hfe; exact absurd hfe (List.not_mem_nil i0)
      have hmem_filter : ∀ j, j ∈ t :: ts ↔
          (j ∈ intentList ∧ computeScore true counts j = maxIntentScore true counts) := by
        intro j
        rw [← hft]
        constructor
        · intro hj
          rcases List.mem_filter.mp hj with ⟨hj1, hj2⟩
          exact ⟨hj1, by simpa using hj2⟩
        · intro ⟨hj1, hj2⟩
          exact List.mem_filter.mpr ⟨hj1, by simpa using hj2⟩
      have hprimary : (classify true counts).1 =
          (match t :: ts with
            | [i] => i
            | l => pickMaxPriority l) := by
        rw [classify, if_neg hm0]
        simp only [hft]
      rcases ts with _ | ⟨t2, ts2⟩
      · -- singleton top list
        have hw : (classify true counts).1 = t := by rw [hprimary]
        constructor
        · rw [hw]; exact ((hmem_filter t).mp (List.mem_cons_self t [])).2
        · intro j hj
          have : j ∈ [t] := (hmem_filter j).mpr ⟨mem_intentList j, hj⟩
          rcases List.mem_singleton.mp this with h
          rw [h, hw]
      · -- tie broken by priority
        have hw : (classify true counts).1 = pickMaxPriority (t :: t2 :: ts2) := by
          rw [hprimary]
        constructor
        · rw [hw]
          exact ((hmem_filter _).mp
            (pickMaxPriority_mem (t :: t2 :: ts2) (by simp))).2
        · intro j hj
          rw [hw]
          exact pickMaxPriority_le (t :: t2 :: ts2) j
            ((hmem_filter j).mpr ⟨mem_intentList j, hj⟩)
    set w := (classify true counts).1 with hwdef
    have hcw : 0 < counts w := by
      by_contra hc
      have hz : counts w = 0 := Nat.eq_zero_of_not_pos hc
      have := computeScore_of_zero true counts w hz
      rw [hwin.1] at this
      exact hm0 this
    refine ⟨?_, ?_, hcw, ?_⟩
    · intro j
      have h1 : computeScore true counts j ≤ computeScore true counts w := by
        rw [hwin.1]; exact computeScore_le_maxIntentScore true counts j
      have h2 : (counts j : ℚ) ≤ (counts w : ℚ) + 1/2 :=
        le_trans (count_le_computeScore true counts j)
          (le_trans h1 (computeScore_le true counts w))
      have h3 : (counts j : ℚ) < (counts w : ℚ) + 1 := by linarith
      have h4 : counts j < counts w + 1 := by exact_mod_cast h3
      omega
    · intro j hj
      have hjpos : 0 < counts j := hj ▸ hcw
      have h1 : computeScore true counts j ≤ computeScore true counts w := by
        rw [hwin.1]; exact computeScore_le_maxIntentScore true counts j
      rw [computeScore_of_pos counts j hjpos, computeScore_of_pos counts w hcw, hj] at h1
      have h2 : (INTENT_PRIORITY j : ℚ) ≤ (INTENT_PRIORITY w : ℚ) := by linarith
      exact_mod_cast h2
    · have hmpos : 0 < maxIntentScore true counts := by
        rcases lt_or_eq_of_le (le_trans (computeScore_nonneg true counts w)
          (computeScore_le_maxIntentScore true counts w)) with h | h
        · exact h
        · exact absurd h.symm hm0
      have htotal : maxIntentScore true counts ≤
          (intentList.map (computeScore true counts)).sum := by
        rw [← hwin.1]
        exact List.single_le_sum
          (by intro x hx
              rcases List.mem_map.mp hx with ⟨i, _, hi⟩
              exact hi ▸ computeScore_nonneg true counts i)
          _ (List.mem_map_of_mem (computeScore true counts) (mem_intentList w))
      have htpos : 0 < (intentList.map (computeScore true counts)).sum :=
        lt_of_lt_of_le hmpos htotal
      have hconf : (classify true counts).2 =
          maxIntentScore true counts / (intentList.map (computeScore true counts)).sum := by
        rw [classify, if_neg hm0]
        simp only [if_pos htpos]
      rw [hconf, ← hwin.1, computeScore_of_pos counts w hcw]

/-- **C5, witness.** -/
theorem C5_classify_amended_witness :
    classify true (fun _ => 0) = (Intent.GENERAL, 1/2) ∧
    0 < cexCounts ((classify true cexCounts).1) :=
  ⟨(C5_classify_amended (fun _ => 0)).1 (fun _ => rfl),
   ((C5_classify_amended cexCounts).2
     (fun h => absurd (h .PRICE) (by decide))).2.2.1⟩

/-- **C7, confirmed.**  Dynamic top-N: `[10.0, 9.8, 4.0] ⇒ N = 2` and
`[10.0, 5.0, 4.9] ⇒ N = 1`; the result never exceeds 3, the caller's
maximum, or the candidate count; at least 2 results are returned iff the
first relative gap is below the margin (first score positive), and
exactly 3 iff both consecutive relative gaps are. -/
theorem C7_dynamic_topN :
    dynamicTopK [10, 49/5, 4] 5 = 2 ∧
    dynamicTopK [10, 5, 49/10] 5 = 1 ∧
    (∀ (scores : List ℚ) (topK : ℕ),
      dynamicTopK scores topK ≤ 3 ∧
      dynamicTopK scores topK ≤ topK ∧
      dynamicTopK scores topK ≤ scores.length) ∧
    (∀ (s1 s2 : ℚ) (rest : List ℚ) (topK : ℕ), 2 ≤ topK →
      (2 ≤ dynamicTopK (s1 :: s2 :: rest) topK ↔
        0 < s1 ∧ (s1 - s2) / s1 < topNMargin)) ∧
    (∀ (s1 s2 s3 : ℚ) (rest : List ℚ) (topK : ℕ), 3 ≤ topK →
      (dynamicTopK (s1 :: s2 :: s3 :: rest) topK = 3 ↔
        (0 < s1 ∧ (s1 - s2) / s1 < topNMargin) ∧
        (0 < s2 ∧ (s2 - s3) / s2 < topNMargin))) := by
  refine ⟨by norm_num [dynamicTopK, topNMargin], by norm_num [dynamicTopK, topNMargin],
    ?_, ?_, ?_⟩
  · intro scores topK
    rcases scores with _ | ⟨s1, scores⟩
    · simp [dynamicTopK]
    rcases scores with _ | ⟨s2, rest⟩
    · simp [dynamicTopK]
    rcases rest with _ | ⟨s3, rest'⟩ <;>
      · simp only [dynamicTopK, List.length_cons]
        split_ifs <;> omega
  · intro s1 s2 rest topK htop
    rcases rest with _ | ⟨s3, rest'⟩
    · simp only [dynamicTopK, List.length_cons, List.length_nil]
      split_ifs with h1
      · exact iff_of_true (by omega) h1
      · exact iff_of_false (by omega) h1
    · simp only [dynamicTopK, List.length_cons]
      split_ifs with h1 h2
      · exact iff_of_true (by omega) h1
      · exact iff_of_true (by omega) h1
      · exact iff_of_false (by omega) h1
  · intro s1 s2 s3 rest topK htop
    simp only [dynamicTopK, List.length_cons]
    split_ifs with h1 h2
    · exact iff_of_true (by omega) ⟨h1, h2⟩
    · exact iff_of_false (by omega) (fun h => h2 h.2)
    · exact iff_of_false (by omega) (fun h => h1 h.1)

/-- **C7, witness.** -/
theorem C7_dynamic_topN_witness :
    (2 ≤ dynamicTopK [(3 : ℚ), 3, 1] 4 ↔
      0 < (3 : ℚ) ∧ ((3 : ℚ) - 3) / 3 < topNMargin) ∧
    (dynamicTopK [(8 : ℚ), 8, 8] 7 = 3 ↔
      (0 < (8 : ℚ) ∧ ((8 : ℚ) - 8) / 8 < topNMargin) ∧
      (0 < (8 : ℚ) ∧ ((8 : ℚ) - 8) / 8 < topNMargin)) :=
  ⟨C7_dynamic_topN.2.2.2.1 3 3 [1] 4 (by decide),
   C7_dynamic_topN.2.2.2.2 8 8 8 [] 7 (by decide)⟩

/-- Document 0 of the C6 counterexample corpus: ten occurrences of
term `0` and one occurrence of term `1`. -/
def cexDoc : List ℕ := List.replicate 10 0 ++ [1]

/-- The C6 counterexample corpus: `cexDoc` plus ten filler documents of
one hundred `2`-tokens each, so the average document length is small
and BM25's length normalisation penalises the long document 0. -/
def cexCorpus : List (List ℕ) := cexDoc :: List.replicate 10 (List.replicate 100 2)

/-- `cexCorpus` after adding one more occurrence of the query term `0`
to document 0 (the corpus otherwise fixed, index rebuilt). -/
def cexCorpusAdd : List (List ℕ) :=
  (cexDoc ++ [0]) :: List.replicate 10 (List.replicate 100 2)

/-- **C6, counterexample.**  Adding one occurrence of query term `0` to
document 0 (which also contains query term `1`) *decreases* its BM25
score for the query `[0, 1]`: the longer document is penalised by the
`b·dl/avgdl` length normalisation on the already-saturated term `0` and
on term `1`, and the loss exceeds the gain. -/
theorem C6_counterexample :
    cexCorpusAdd = cexCorpus.set 0 ((cexCorpus.getD 0 []) ++ [0]) ∧
    bm25Score cexCorpusAdd 0 [0, 1] < bm25Score cexCorpus 0 [0, 1] := by
  refine ⟨rfl, ?_⟩
  have e1 : termFreq cexCorpus 0 0 = 10 := rfl
  have e2 : termFreq cexCorpus 0 1 = 1 := rfl
  have e3 : docLength cexCorpus 0 = 11 := rfl
  have e4 : totalLen cexCorpus = 1011 := by decide
  have e5 : cexCorpus.length = 11 := rfl
  have f1 : termFreq cexCorpusAdd 0 0 = 11 := rfl
  have f2 : termFreq cexCorpusAdd 0 1 = 1 := rfl
  have f3 : docLength cexCorpusAdd 0 = 12 := rfl
  have f4 : totalLen cexCorpusAdd = 1012 := by decide
  have f5 : cexCorpusAdd.length = 11 := rfl
  have d1 : docFreq cexCorpus 0 = 1 := by decide
  have d2 : docFreq cexCorpus 1 = 1 := by decide
  have g1 : docFreq cexCorpusAdd 0 = 1 := by decide
  have g2 : docFreq cexCorpusAdd 1 = 1 := by decide
  have havg : avgDocLength cexCorpus = 1011/11 := by
    rw [avgDocLength, if_neg (by simp [cexCorpus]), e4, e5]
    norm_num
  have havg' : avgDocLength cexCorpusAdd = 1012/11 := by
    rw [avgDocLength, if_neg (by simp [cexCorpusAdd]), f4, f5]
    norm_num
  have hidf1 : bm25Idf cexCorpus 0 = Real.log 8 := by
    rw [bm25Idf, d1, e5]
    norm_num
  have hidf2 : bm25Idf cexCorpus 1 = Real.log 8 := by
    rw [bm25Idf, d2, e5]
    norm_num
  have hidf1' : bm25Idf cexCorpusAdd 0 = Real.log 8 := by
    rw [bm25Idf, g1, f5]
    norm_num
  have hidf2' : bm25Idf cexCorpusAdd 1 = Real.log 8 := by
    rw [bm25Idf, g2, f5]
    norm_num
  have hsum : bm25TfPart cexCorpusAdd 0 0 + bm25TfPart cexCorpusAdd 0 1 <
      bm25TfPart cexCorpus 0 0 + bm25TfPart cexCorpus 0 1 := by
    simp only [bm25TfPart, bm25K1, bm25B, e1, e2, e3, f1, f2, f3, havg, havg']
    norm_num
  simp only [bm25Score, List.map_cons, List.map_nil, List.sum_cons, List.sum_nil,
    add_zero]
  rw [hidf1, hidf2, hidf1', hidf2', ← mul_add, ← mul_add]
  have hcast : (bm25TfPart cexCorpusAdd 0 0 : ℝ) + (bm25TfPart cexCorpusAdd 0 1 : ℝ) <
      (bm25TfPart cexCorpus 0 0 : ℝ) + (bm25TfPart cexCorpus 0 1 : ℝ) := by
    exact_mod_cast hsum
  exact mul_lt_mul_of_pos_left hcast (Real.log_pos (by norm_num))

/-- **C6, amended.**  Adding one occurrence of a term `t` to a passage
never decreases the passage's BM25 score for the single-term query
`[t]` (corpus otherwise fixed, index rebuilt); equivalently, the added
term's own contribution never decreases.  The full score for a
multi-term query *can* decrease, because the grown document length
shrinks the contributions of the query's other terms (see the
counterexample). -/
theorem C6_bm25_amended (corpus : List (List ℕ)) (i t : ℕ)
    (hi : i < corpus.length) :
    bm25Score corpus i [t] ≤
      bm25Score (corpus.set i ((corpus.getD i []) ++ [t])) i [t] := by
  set doc := corpus.getD i [] with hdocdef
  set corpus' := corpus.set i (doc ++ [t]) with hcdef
  have hpos : 0 < corpus.length := lt_of_le_of_lt (Nat.zero_le i) hi
  have hne : corpus ≠ [] := List.length_pos.mp hpos
  have hlen : corpus'.length = corpus.length := by
    rw [hcdef, List.length_set]
  have hne' : corpus' ≠ [] := List.length_pos.mp (hlen ▸ hpos)
  have hgetD : corpus'.getD i [] = doc ++ [t] := by
    rw [hcdef]
    exact getD_set_self corpus i _ [] hi
  by_cases hmem : t ∈ doc
  · -- the term was already present: idf unchanged, tf-part monotone
    have htf : termFreq corpus' i t = termFreq corpus i t + 1 := by
      rw [termFreq, termFreq, hgetD, List.count_append]
      simp [hdocdef]
    have hdl : docLength corpus' i = docLength corpus i + 1 := by
      rw [docLength, docLength, hgetD, List.length_append]
      simp [hdocdef]
    have htot : totalLen corpus' = totalLen corpus + 1 := by
      have h := totalLen_set corpus i (doc ++ [t]) hi
      rw [← hcdef] at h
      have hd : docLength corpus i = doc.length := rfl
      simp only [List.length_append, List.length_cons, List.length_nil] at h
      omega
    have hdf : docFreq corpus' t = docFreq corpus t := by
      rw [hcdef]
      exact docFreq_set_mem corpus i t hi hmem
    have hidf : bm25Idf corpus' t = bm25Idf corpus t := by
      rw [bm25Idf, bm25Idf, hdf, hlen]
    have htfq : 1 ≤ termFreq corpus i t := List.count_pos_iff.mpr hmem
    have htfdl : termFreq corpus i t ≤ docLength corpus i :=
      List.count_le_length t doc
    have hdlL : docLength corpus i ≤ totalLen corpus := by
      have hmem2 : doc ∈ corpus := by
        rw [hdocdef, List.getD_eq_getElem corpus [] (by simpa using hi)]
        exact List.getElem_mem _
      have hmap : doc.length ∈ corpus.map List.length :=
        List.mem_map_of_mem List.length hmem2
      exact List.single_le_sum (fun x _ => Nat.zero_le x) _ hmap
    have havg : avgDocLength corpus =
        (totalLen corpus : ℚ) / (corpus.length : ℚ) := by
      rw [avgDocLength, if_neg hne]
    have havg' : avgDocLength corpus' =
        ((totalLen corpus : ℚ) + 1) / (corpus.length : ℚ) := by
      rw [avgDocLength, if_neg hne', htot, hlen]
      push_cast
      ring
    have hpart : bm25TfPart corpus i t ≤ bm25TfPart corpus' i t := by
      simp only [bm25TfPart, havg, havg', htf, hdl]
      push_cast
      exact bm25_tf_mono (termFreq corpus i t : ℚ) (docLength corpus i : ℚ)
        (totalLen corpus : ℚ) (corpus.length : ℚ)
        (by exact_mod_cast htfq) (by exact_mod_cast htfdl)
        (by exact_mod_cast hdlL) (by exact_mod_cast hpos)
    simp only [bm25Score, List.map_cons, List.map_nil, List.sum_cons,
      List.sum_nil, add_zero]
    rw [hidf]
    exact mul_le_mul_of_nonneg_left (by exact_mod_cast hpart)
      (bm25Idf_nonneg corpus t)
  · -- the term was absent: the old contribution is zero, the new one
    -- is nonnegative
    have htf0 : termFreq corpus i t = 0 := List.count_eq_zero.mpr hmem
    have hpart0 : bm25TfPart corpus i t = 0 := by
      simp only [bm25TfPart, htf0]
      norm_num
    simp only [bm25Score, List.map_cons, List.map_nil, List.sum_cons,
      List.sum_nil, add_zero]
    rw [hpart0]
    simp only [Rat.cast_zero, mul_zero]
    exact mul_nonneg (bm25Idf_nonneg corpus' t)
      (by exact_mod_cast bm25TfPart_nonneg corpus' i t)

/-- **C6, witness.** -/
theorem C6_bm25_amended_witness :
    bm25Score [[5]] 0 [5] ≤ bm25Score ([[5]].set 0 (([[5]].getD 0 []) ++ [5])) 0 [5] :=
  C6_bm25_amended [[5]] 0 5 (by decide)

/-! ### Signature booster lemmas -/

/-- Each of the three accumulation loops contributes a nonnegative sum
when every IDF value is nonnegative. -/
lemma sig_sum_nonneg (idf : String → ℚ) (w : ℚ) (hw : 0 ≤ w)
    (hidf : ∀ t, 0 ≤ idf t) (l : List String) :
    0 ≤ (l.map (fun t => idf t * w)).sum := by
  apply List.sum_nonneg
  intro x hx
  rcases List.mem_map.mp hx with ⟨t, _, ht⟩
  exact ht ▸ mul_nonneg (hidf t) hw

/-- The raw boost is a nonnegative sum when IDF values are nonnegative. -/
lemma sigRawBoost_nonneg (idf : String → ℚ) (entitySigs : String → List String)
    (p : SigPassage) (query : String) (hidf : ∀ t, 0 ≤ idf t) :
    0 ≤ sigRawBoost idf entitySigs p query := by
  rw [sigRawBoost]
  have h1 := sig_sum_nonneg idf (1/10) (by norm_num) hidf (sigMatchedTokens p query)
  have h2 := sig_sum_nonneg idf (1/20) (by norm_num) hidf
    ((entitySigs p.entity_code).dedup.filter
      (fun t => strIn t (strLower query) && !(sigMatchedTokens p query).contains t))
  have h3 := sig_sum_nonneg idf (1/10) (by norm_num) hidf
    (BASE_SIGNATURE_TOKENS.filter
      (fun t => strIn t (strLower query) && strIn t (strLower p.text)))
  linarith

/-- The penalty step keeps the boost nonnegative. -/
lemma sigPenalizedBoost_nonneg (idf : String → ℚ) (entitySigs : String → List String)
    (p : SigPassage) (query : String) (filt : Option String)
    (hidf : ∀ t, 0 ≤ idf t) :
    0 ≤ sigPenalizedBoost idf entitySigs p query filt := by
  have hraw := sigRawBoost_nonneg idf entitySigs p query hidf
  rcases filt with _ | f
  · exact hraw
  · rw [sigPenalizedBoost]
    split_ifs with h
    · linarith
    · exact hraw

/-- **C8, confirmed.**  Whenever the stored IDF values are nonnegative
(which the build formula guarantees), the signature boost multiplier
`1 + min(boost, 1)` over the accumulated `idf·weight` sum always lies in
`[1, 2]`; the `0.5×` mismatch penalty never increases the multiplier;
and the build-time IDF `log((N+1)/(df+1)) + 1` is at least `1` (so
nonnegative) whenever `df ≤ N`, which holds because a token's document
frequency never exceeds the corpus size. -/
theorem C8_signature_boost (idf : String → ℚ) (entitySigs : String → List String)
    (p : SigPassage) (query : String) (filt : Option String)
    (hidf : ∀ t, 0 ≤ idf t) :
    computeBoost idf entitySigs p query filt =
      1 + min (sigPenalizedBoost idf entitySigs p query filt) 1 ∧
    1 ≤ computeBoost idf entitySigs p query filt ∧
    computeBoost idf entitySigs p query filt ≤ 2 ∧
    (∀ f : String, f ≠ "" → p.entity_code ≠ f →
      computeBoost idf entitySigs p query (some f) ≤
        computeBoost idf entitySigs p query none) ∧
    (∀ N df : ℕ, df ≤ N → 1 ≤ signatureIdf N df) := by
  refine ⟨rfl, ?_, ?_, ?_, ?_⟩
  · rw [computeBoost]
    have h0 := sigPenalizedBoost_nonneg idf entitySigs p query filt hidf
    have := le_min h0 (le_refl (1:ℚ)) |>.trans (le_refl _)
    have hmin : 0 ≤ min (sigPenalizedBoost idf entitySigs p query filt) 1 :=
      le_min h0 (by norm_num)
    linarith
  · rw [computeBoost]
    have := min_le_right (sigPenalizedBoost idf entitySigs p query filt) 1
    linarith
  · intro f hf hne
    rw [computeBoost, computeBoost]
    have hraw := sigRawBoost_nonneg idf entitySigs p query hidf
    have hpen : sigPenalizedBoost idf entitySigs p query (some f) ≤
        sigPenalizedBoost idf entitySigs p query none := by
      rw [sigPenalizedBoost, sigPenalizedBoost, if_pos ⟨hf, hne⟩]
      linarith
    have := min_le_min_right (1:ℚ) hpen
    linarith
  · intro N df hdf
    rw [signatureIdf]
    have h1 : (0:ℝ) < (df : ℝ) + 1 := by positivity
    have h2 : (1:ℝ) ≤ ((N : ℝ) + 1) / ((df : ℝ) + 1) := by
      rw [le_div_iff₀ h1]
      have : (df : ℝ) ≤ (N : ℝ) := by exact_mod_cast hdf
      linarith
    have := Real.log_nonneg h2
    linarith

/-- **C8, witness.** -/
theorem C8_signature_boost_witness :
    1 ≤ computeBoost (fun _ => 1) (fun _ => []) ⟨"P", "tarif", []⟩ "tarif" none ∧
    computeBoost (fun _ => 1) (fun _ => []) ⟨"P", "tarif", []⟩ "tarif" none ≤ 2 ∧
    1 ≤ signatureIdf 5 2 :=
  ⟨(C8_signature_boost (fun _ => 1) (fun _ => []) ⟨"P", "tarif", []⟩ "tarif" none
      (fun _ => by norm_num)).2.1,
   (C8_signature_boost (fun _ => 1) (fun _ => []) ⟨"P", "tarif", []⟩ "tarif" none
      (fun _ => by norm_num)).2.2.1,
   (C8_signature_boost (fun _ => 1) (fun _ => []) ⟨"P", "tarif", []⟩ "tarif" none
      (fun _ => by norm_num)).2.2.2.2 5 2 (by norm_num)⟩

/-- **C9, confirmed.**  The cascading three-layer retriever: the rule
layer, when unblocked and non-empty, short-circuits everything and wins
with score `1.0`; the BM25 layer is consulted only when the rule layer
is blocked or empty and wins exactly when its best score clears its
threshold; the dense layer is consulted only when both previous layers
blocked/failed; when every layer is blocked, empty or below threshold
the retriever returns `none` (a value, not an exception), and every
success returns exactly one document with the winning layer's identity
and score. -/
theorem C9_three_layer {α : Type} (cfg : ThreeLayerConfig)
    (ruleCandidates : List α) (sparseResults denseResults : List (α × ℚ)) :
    (∀ (d : α) (ds : List α), cfg.blockRuleLayer = false →
      ruleCandidates = d :: ds →
      threeLayerRetrieve cfg ruleCandidates sparseResults denseResults =
        some (d, "Layer 1 (Rule-based)", 1)) ∧
    (∀ (d : α) (s : ℚ) (rest : List (α × ℚ)),
      (cfg.blockRuleLayer = true ∨ ruleCandidates = []) →
      cfg.blockBm25Layer = false → sparseResults = (d, s) :: rest →
      cfg.bm25ScoreThreshold ≤ s →
      threeLayerRetrieve cfg ruleCandidates sparseResults denseResults =
        some (d, "Layer 2 (BM25)", s)) ∧
    (∀ (d : α) (s : ℚ) (rest : List (α × ℚ)),
      (cfg.blockRuleLayer = true ∨ ruleCandidates = []) →
      (cfg.blockBm25Layer = true ∨ sparseResults = [] ∨
        (∃ d2 s2 r2, sparseResults = (d2, s2) :: r2 ∧ s2 < cfg.bm25ScoreThreshold)) →
      cfg.blockDenseLayer = false → denseResults = (d, s) :: rest →
      cfg.denseScoreThreshold ≤ s →
      threeLayerRetrieve cfg ruleCandidates sparseResults denseResults =
        some (d, "Layer 3 (Dense)", s)) ∧
    ((cfg.blockRuleLayer = true ∨ ruleCandidates = []) →
     (cfg.blockBm25Layer = true ∨ sparseResults = [] ∨
        (∃ d2 s2 r2, sparseResults = (d2, s2) :: r2 ∧ s2 < cfg.bm25ScoreThreshold)) →
     (cfg.blockDenseLayer = true ∨ denseResults = [] ∨
        (∃ d3 s3 r3, denseResults = (d3, s3) :: r3 ∧ s3 < cfg.denseScoreThreshold)) →
     threeLayerRetrieve cfg ruleCandidates sparseResults denseResults = none) := by
  have ruleFail : (cfg.blockRuleLayer = true ∨ ruleCandidates = []) →
      threeLayerRetrieve cfg ruleCandidates sparseResults denseResults =
        threeLayerSparseStep cfg sparseResults denseResults := by
    rintro (h | h) <;> simp [threeLayerRetrieve, h]
  have sparseFail : (cfg.blockBm25Layer = true ∨ sparseResults = [] ∨
      (∃ d2 s2 r2, sparseResults = (d2, s2) :: r2 ∧ s2 < cfg.bm25ScoreThreshold)) →
      threeLayerSparseStep cfg sparseResults denseResults =
        threeLayerDenseStep cfg denseResults := by
    rintro (h | h | ⟨d2, s2, r2, h, hlt⟩)
    · simp [threeLayerSparseStep, h]
    · simp [threeLayerSparseStep, h]
    · cases hb : cfg.blockBm25Layer <;>
        simp [threeLayerSparseStep, h, hb, not_le.mpr hlt]
  have denseFail : (cfg.blockDenseLayer = true ∨ denseResults = [] ∨
      (∃ d3 s3 r3, denseResults = (d3, s3) :: r3 ∧ s3 < cfg.denseScoreThreshold)) →
      threeLayerDenseStep cfg denseResults = none := by
    rintro (h | h | ⟨d3, s3, r3, h, hlt⟩)
    · simp [threeLayerDenseStep, h]
    · simp [threeLayerDenseStep, h]
    · cases hb : cfg.blockDenseLayer <;>
        simp [threeLayerDenseStep, h, hb, not_le.mpr hlt]
  refine ⟨?_, ?_, ?_, ?_⟩
  · intro d ds hb hr
    simp [threeLayerRetrieve, hb, hr]
  · intro d s rest h1 hb hs hth
    rw [ruleFail h1]
    simp [threeLayerSparseStep, hb, hs, hth]
  · intro d s rest h1 h2 hb hd hth
    rw [ruleFail h1, sparseFail h2]
    simp [threeLayerDenseStep, hb, hd, hth]
  · intro h1 h2 h3
    rw [ruleFail h1, sparseFail h2, denseFail h3]

/-- **C9, witness.** -/
theorem C9_three_layer_witness :
    threeLayerRetrieve (α := ℕ) ⟨false, false, false, 11/20, 1/10⟩ [7] [] [] =
      some (7, "Layer 1 (Rule-based)", 1) ∧
    threeLayerRetrieve (α := ℕ) ⟨true, false, false, 11/20, 1/10⟩ [7] [(9, 3/4)] [] =
      some (9, "Layer 2 (BM25)", 3/4) ∧
    threeLayerRetrieve (α := ℕ) ⟨false, false, false, 11/20, 1/10⟩ [] [(9, 1/2)] [(4, 1/5)] =
      some (4, "Layer 3 (Dense)", 1/5) ∧
    threeLayerRetrieve (α := ℕ) ⟨false, false, false, 11/20, 1/10⟩ [] [(9, 1/2)] [(4, 1/20)] =
      none :=
  ⟨(C9_three_layer ⟨false, false, false, 11/20, 1/10⟩ [7] [] []).1 7 [] rfl rfl,
   (C9_three_layer ⟨true, false, false, 11/20, 1/10⟩ [7] [(9, 3/4)] []).2.1 9 (3/4) []
     (Or.inl rfl) rfl rfl (by norm_num),
   (C9_three_layer ⟨false, false, false, 11/20, 1/10⟩ [] [(9, 1/2)] [(4, 1/5)]).2.2.1
     4 (1/5) [] (Or.inr rfl)
     (Or.inr (Or.inr ⟨9, 1/2, [], rfl, by norm_num⟩)) rfl rfl (by norm_num),
   (C9_three_layer ⟨false, false, false, 11/20, 1/10⟩ [] [(9, 1/2)] [(4, 1/20)]).2.2.2
     (Or.inr rfl)
     (Or.inr (Or.inr ⟨9, 1/2, [], rfl, by norm_num⟩))
     (Or.inr (Or.inr ⟨4, 1/20, [], rfl, by norm_num⟩))⟩

/-- **C1, code bug.**  With `use_cross_encoder = True` and the
cross-encoder model unavailable, `get_reranker` returns a
`FallbackReranker`, which defines only `rerank`; `search` nevertheless
dispatches `rerank_with_aggregation` on it, so every query raises
`AttributeError` instead of returning a well-formed result through the
heuristic reranker.  (When the model loads, the cross-encoder
aggregation runs; when `use_cross_encoder` is off, the simple
aggregation runs — only the documented degraded mode is broken.) -/
theorem C1_fallback_reranker_crash :
    searchAggregationStep true false =
      Except.error
        "AttributeError: FallbackReranker object has no attribute rerank_with_aggregation" ∧
    getReranker true false = RerankerKind.fallback ∧
    hasRerankWithAggregation RerankerKind.fallback = false ∧
    searchAggregationStep true true = Except.ok AggregationPath.crossEncoderAgg ∧
    searchAggregationStep false false = Except.ok AggregationPath.simpleAgg :=
  ⟨rfl, rfl, rfl, rfl, rfl⟩

end ForsaChatbot
